import Mathlib

/-
Verification of the reading-session lifecycle and statistics aggregation
engine of the bookery backend (books/models.py, books/serializers.py,
books/views.py, user/models.py, user/tasks.py).

Shallow embedding notes:
* Timestamps and durations are modelled as integers counting microseconds,
  which is exactly Django's DateTimeField resolution; every duration and
  every SQL sum of durations is therefore an exact integer.
* `timedelta.total_seconds()` followed by Python `int(...)` truncates the
  microsecond count toward zero when divided by 10^6; for durations below
  about 2^40 microseconds the float produced by `total_seconds()` is close
  enough to exact that the truncation is the mathematical one, which is what
  `toSecondsTrunc` computes.
* A Django queryset over ReadingSession is modelled as a `List` kept in
  primary-key (creation) order; `.last()` on an unordered queryset orders
  by primary key, hence is `List.getLast?` of the filtered list.
* SQL `SUM` over an expression that is NULL on some rows skips those rows
  and returns NULL when no row contributes (`sqlSum`).
* Python truthiness of `timedelta`/`None` (`x.total_seconds() if x else 0`)
  maps both `None` and the zero duration to 0 (`truthyOr0`).
-/

namespace Bookery

/-- books/models.py `ReadingSession`: user, book, nullable start/stop
timestamps (microseconds). `id` is the auto primary key. -/
structure ReadingSession where
  id : Nat
  user : Nat
  book : Nat
  start_reading : Option ℤ
  stop_reading : Option ℤ
deriving DecidableEq

/-- The reading-session table together with the next auto-assigned primary key. -/
structure Store where
  sessions : List ReadingSession
  nextId : Nat
deriving DecidableEq

/-- user/models.py `Profile`: one per user, cached rolling totals (whole seconds). -/
structure Profile where
  id : Nat
  user : Nat
  total_reading_7days : Int
  total_reading_30days : Int
deriving DecidableEq

/-- The filter `ReadingSession.objects.filter(user=user, stop_reading__isnull=True)`. -/
def isActiveFor (user : Nat) (r : ReadingSession) : Bool :=
  r.user == user && r.stop_reading == none

/-- The effect of the bulk update `active_session.update(stop_reading=timezone.now())`
on one row: close it when it matches the active filter, leave it alone otherwise. -/
def closeFor (user : Nat) (now : ℤ) (r : ReadingSession) : ReadingSession :=
  if isActiveFor user r then { r with stop_reading := some now } else r

/-- books/serializers.py `StartReadingSerializer.validate` followed by `create`:
reject when an active session for the same book exists; otherwise bulk-close
every active session of the user and create a fresh open session at `now`. -/
def startReading (s : Store) (user book : Nat) (now : ℤ) :
    Except String (Store × ReadingSession) :=
  let active := s.sessions.filter (isActiveFor user)
  if !active.isEmpty && !(active.filter (fun r => r.book == book)).isEmpty then
    .error "Active reading session already exists"
  else
    let afterClose :=
      if !active.isEmpty then s.sessions.map (closeFor user now)
      else s.sessions
    let newSession : ReadingSession :=
      ⟨s.nextId, user, book, some now, none⟩
    .ok (⟨afterClose ++ [newSession], s.nextId + 1⟩, newSession)

/-- `ReadingSession.objects.filter(user=..., book=...).last()` in
books/views.py `stop_reading`: the most recently created (highest-pk) session
of the user for the book. -/
def lastSession (s : Store) (user book : Nat) : Option ReadingSession :=
  (s.sessions.filter (fun r => r.user == user && r.book == book)).getLast?

/-- books/views.py `BookViewSet.stop_reading` + books/serializers.py
`StopReadingSerializer`: locate the last session for (user, book); fail when it
is missing or already closed; otherwise set its `stop_reading` to `now`. -/
def stopReading (s : Store) (user book : Nat) (now : ℤ) :
    Except String (Store × ReadingSession) :=
  match lastSession s user book with
  | none => .error "Session is not active"
  | some inst =>
    if inst.stop_reading ≠ none then
      .error "Session is not active"
    else
      let updated : ReadingSession := { inst with stop_reading := some now }
      .ok (⟨s.sessions.map (fun r => if r.id == inst.id then updated else r),
            s.nextId⟩, updated)

/-- The per-row addend `stop_reading - start_reading`; NULL (skipped by SQL
`SUM`) when either endpoint is NULL. -/
def sessionDuration (r : ReadingSession) : Option ℤ :=
  match r.start_reading, r.stop_reading with
  | some a, some b => some (b - a)
  | _, _ => none

/-- SQL `SUM`: NULL addends are skipped; the sum of no (non-NULL) addends is NULL. -/
def sqlSum (l : List (Option ℤ)) : Option ℤ :=
  let vals := l.filterMap id
  if vals.isEmpty then none else some vals.sum

/-- Python `x.total_seconds() if x else 0` on an optional timedelta:
`None` and the zero timedelta are falsy and give 0 (microseconds here). -/
def truthyOr0 : Option ℤ → ℤ
  | some d => if d == 0 then 0 else d
  | none => 0

/-- `int(timedelta.total_seconds())`: microseconds to whole seconds,
truncating toward zero (Python `int()` on a float). -/
def toSecondsTrunc (micros : ℤ) : ℤ :=
  micros.tdiv 1000000

/-- books/views.py `BookViewSet.statistic`: total reading seconds of the user
for one book, summing `stop_reading - start_reading` over the user's sessions
for that book (open sessions yield NULL addends), 0 when the sum is NULL. -/
def statistic (s : Store) (user book : Nat) : ℤ :=
  let total := sqlSum
    ((s.sessions.filter (fun r => r.user == user && r.book == book)).map
      sessionDuration)
  toSecondsTrunc (truthyOr0 total)

/-- The row filter `user=..., stop_reading__gte=cutoff` of user/tasks.py:
a NULL stop never satisfies `gte`. -/
def stopInWindow (user : Nat) (cutoff : ℤ) (r : ReadingSession) : Bool :=
  r.user == user &&
    match r.stop_reading with
    | some st => decide (cutoff ≤ st)
    | none => false

/-- The aggregate `Sum(F(stop_reading) - F(start_reading))` of user/tasks.py
over the rows selected by `stopInWindow`. -/
def windowAggregate (sessions : List ReadingSession) (user : Nat) (cutoff : ℤ) :
    Option ℤ :=
  sqlSum ((sessions.filter (stopInWindow user cutoff)).map sessionDuration)

/-- `timedelta(days=7)` in microseconds. -/
def sevenDays : ℤ := 7 * 86400 * 1000000

/-- `timedelta(days=30)` in microseconds. -/
def thirtyDays : ℤ := 30 * 86400 * 1000000

/-- One iteration of the loop in user/tasks.py `reading_time_statistic`:
recompute both windows for `profile.user` and write the truncated second
counts back by profile id. -/
def aggregateStep (sessions : List ReadingSession) (now : ℤ)
    (table : List Profile) (profile : Profile) : List Profile :=
  let seven_days_ago := now - sevenDays
  let thirty_days_ago := now - thirtyDays
  let s7 := toSecondsTrunc
    (truthyOr0 (windowAggregate sessions profile.user seven_days_ago))
  let s30 := toSecondsTrunc
    (truthyOr0 (windowAggregate sessions profile.user thirty_days_ago))
  table.map (fun p =>
    if p.id == profile.id then
      { p with total_reading_7days := s7, total_reading_30days := s30 }
    else p)

/-- user/tasks.py `reading_time_statistic`: iterate over the snapshot of all
profiles, recomputing and persisting each profile's 7-day and 30-day totals.
The two `timezone.now()` calls are microseconds apart and are modelled as the
single instant `now`. -/
def reading_time_statistic (profiles : List Profile)
    (sessions : List ReadingSession) (now : ℤ) : List Profile :=
  profiles.foldl (aggregateStep sessions now) profiles

/-- The loop of `reading_time_statistic` with a failure oracle on the
per-profile write (`Profile.objects.filter(id=...).update(...)`): the source
has no exception handling in the loop, so a raised store error propagates,
aborting the run with the table as updated so far. -/
def aggregateLoopF (writeOk : Nat → Bool) (sessions : List ReadingSession)
    (now : ℤ) : List Profile → List Profile → Except (List Profile) (List Profile)
  | table, [] => .ok table
  | table, profile :: rest =>
    if writeOk profile.id then
      aggregateLoopF writeOk sessions now (aggregateStep sessions now table profile) rest
    else
      .error table

/-- `reading_time_statistic` when some per-profile writes can fail: `.ok` is a
completed run, `.error` an aborted one, each carrying the profile table at that
point. -/
def reading_time_statistic_failing (writeOk : Nat → Bool)
    (profiles : List Profile) (sessions : List ReadingSession) (now : ℤ) :
    Except (List Profile) (List Profile) :=
  aggregateLoopF writeOk sessions now profiles profiles

/-- A request-level operation on the session store. -/
inductive Op where
  | start (user book : Nat) (now : ℤ)
  | stop (user book : Nat) (now : ℤ)

/-- The instant at which an operation runs. -/
def Op.now : Op → ℤ
  | .start _ _ n => n
  | .stop _ _ n => n

/-- Run one operation to completion; a failed call leaves the store unchanged
(validation raises before any write). -/
def applyOp (s : Store) : Op → Store
  | .start u b n =>
    match startReading s u b n with
    | .ok (s', _) => s'
    | .error _ => s
  | .stop u b n =>
    match stopReading s u b n with
    | .ok (s', _) => s'
    | .error _ => s

/-- The empty session table. -/
def emptyStore : Store := ⟨[], 0⟩

/-- States reachable from the empty table by start/stop operations run at
nondecreasing instants; `Reach s t` also records that every operation so far
ran at or before instant `t`. -/
inductive Reach : Store → ℤ → Prop
  | init (t : ℤ) : Reach emptyStore t
  | step {s : Store} {t : ℤ} (op : Op) :
      Reach s t → t ≤ op.now → Reach (applyOp s op) op.now

/-! ### Store invariants -/

/-- Every stored id is below the id counter. -/
def idsBounded (s : Store) : Prop := ∀ r ∈ s.sessions, r.id < s.nextId

/-- Primary keys are pairwise distinct. -/
def idsDistinct (s : Store) : Prop := s.sessions.Pairwise (fun a c => a.id ≠ c.id)

/-- At most one open session per user (spec invariant I1). -/
def openAtMostOne (s : Store) : Prop :=
  ∀ u, (s.sessions.filter (isActiveFor u)).length ≤ 1

/-- Every session has a start time, all timestamps are at most `t`, and
`stop_reading`, when present, is at least `start_reading` (spec invariant I2). -/
def timesWF (s : Store) (t : ℤ) : Prop :=
  ∀ r ∈ s.sessions, ∃ a, r.start_reading = some a ∧ a ≤ t ∧
    ∀ st, r.stop_reading = some st → a ≤ st ∧ st ≤ t

/-- The conjunction of all maintained store invariants. -/
def StoreInv (s : Store) (t : ℤ) : Prop :=
  idsBounded s ∧ idsDistinct s ∧ openAtMostOne s ∧ timesWF s t

/-! ### Shape lemmas for the lifecycle operations -/

theorem closeFor_id (u : Nat) (now : ℤ) (r : ReadingSession) :
    (closeFor u now r).id = r.id := by
  unfold closeFor; split <;> rfl

theorem closeFor_of_not_active {u : Nat} {now : ℤ} {r : ReadingSession}
    (h : isActiveFor u r = false) : closeFor u now r = r := by
  simp [closeFor, h]

theorem isActiveFor_closeFor (u u' : Nat) (now : ℤ) (r : ReadingSession) :
    isActiveFor u' (closeFor u now r) = (!isActiveFor u r && isActiveFor u' r) := by
  rcases hs : r.stop_reading with _ | st
  · by_cases hu : r.user = u
    · simp [closeFor, isActiveFor, hs, hu]
    · simp [closeFor, isActiveFor, hs, hu]
  · simp [closeFor, isActiveFor, hs]

/-- A successful start always has the same shape: all of the user's open
sessions are closed at `now` and a fresh open session is appended. -/
theorem startReading_ok_shape {s : Store} {u b : Nat} {now : ℤ}
    {s' : Store} {rN : ReadingSession}
    (h : startReading s u b now = .ok (s', rN)) :
    rN = ⟨s.nextId, u, b, some now, none⟩ ∧ s'.nextId = s.nextId + 1 ∧
    s'.sessions = s.sessions.map (closeFor u now) ++ [rN] := by
  simp only [startReading] at h
  split at h
  · exact absurd h (by simp)
  · split at h
    · rcases h with ⟨rfl, rfl⟩
      exact ⟨rfl, rfl, rfl⟩
    · rcases h with ⟨rfl, rfl⟩
      refine ⟨rfl, rfl, ?_⟩
      have hnil : s.sessions.filter (isActiveFor u) = [] := by
        rename_i hcond
        simpa [List.isEmpty_iff] using hcond
      have : ∀ r ∈ s.sessions, isActiveFor u r = false := by
        intro r hr
        have := List.filter_eq_nil_iff.mp hnil r hr
        simpa using this
      have hmap : s.sessions.map (closeFor u now) = s.sessions := by
        have := List.map_congr_left (l := s.sessions)
          (f := closeFor u now) (g := id)
          (fun r hr => closeFor_of_not_active (this r hr))
        simpa using this
      simp [hmap]

/-- A start fails exactly when the user already has an open session for the
requested book, and then with the fixed conflict message. -/
theorem startReading_error_iff {s : Store} {u b : Nat} {now : ℤ} {e : String} :
    startReading s u b now = .error e ↔
      (e = "Active reading session already exists" ∧
        ∃ r ∈ s.sessions, isActiveFor u r = true ∧ r.book = b) := by
  simp only [startReading]
  split
  · rename_i hcond
    simp only [Bool.and_eq_true, Bool.not_eq_true', List.isEmpty_eq_false,
      ← List.isEmpty_iff, Bool.not_eq_false, List.isEmpty_eq_false, ne_eq,
      List.filter_eq_nil_iff, List.mem_filter, not_forall, not_not] at hcond
    obtain ⟨-, r, hr, hrb, hact⟩ : _ ∧ ∃ r ∈ s.sessions, r.book = b ∧
        isActiveFor u r = true := by
      simpa [List.mem_filter, and_comm, and_assoc] using hcond
    constructor
    · rintro h
      refine ⟨by injection h with h; exact h.symm, r, hr, hact, hrb⟩
    · rintro ⟨rfl, -⟩
      rfl
  · rename_i hcond
    constructor
    · intro h
      exact absurd h (by simp)
    · rintro ⟨rfl, r, hr, hact, hbook⟩
      exfalso
      apply hcond
      simp only [Bool.and_eq_true, Bool.not_eq_true', List.isEmpty_eq_false, ne_eq]
      refine ⟨List.ne_nil_of_mem (List.mem_filter.mpr ⟨hr, hact⟩), ?_⟩
      exact List.ne_nil_of_mem
        (List.mem_filter.mpr ⟨List.mem_filter.mpr ⟨hr, hact⟩, by simp [hbook]⟩)

/-- A successful stop always has the same shape: the last (user, book) session
was open and gets its stop time set to `now`, everything else untouched. -/
theorem stopReading_ok_shape {s : Store} {u b : Nat} {now : ℤ}
    {s' : Store} {r' : ReadingSession}
    (h : stopReading s u b now = .ok (s', r')) :
    ∃ inst, lastSession s u b = some inst ∧ inst.stop_reading = none ∧
      r' = { inst with stop_reading := some now } ∧ s'.nextId = s.nextId ∧
      s'.sessions = s.sessions.map (fun x => if x.id == inst.id then r' else x) := by
  unfold stopReading at h
  split at h
  · exact absurd h (by simp)
  · rename_i inst heq
    split at h
    · exact absurd h (by simp)
    · rename_i hstop
      rcases h with ⟨rfl, rfl⟩
      exact ⟨inst, heq, by simpa using hstop, rfl, rfl, rfl⟩

/-- A stop fails exactly when the last (user, book) session is missing or
closed, and then with the fixed validation message. -/
theorem stopReading_error_iff {s : Store} {u b : Nat} {now : ℤ} {e : String} :
    stopReading s u b now = .error e ↔
      (e = "Session is not active" ∧
        ∀ inst, lastSession s u b = some inst → inst.stop_reading ≠ none) := by
  unfold stopReading
  split
  · rename_i heq
    constructor
    · intro h
      refine ⟨by injection h with h; exact h.symm, ?_⟩
      intro inst hinst
      rw [heq] at hinst
      exact absurd hinst (by simp)
    · rintro ⟨rfl, -⟩
      rfl
  · rename_i inst heq
    split
    · rename_i hstop
      constructor
      · intro h
        exact ⟨by injection h with h; exact h.symm, fun i hi => by
          rw [heq] at hi; injection hi with hi; exact hi ▸ hstop⟩
      · rintro ⟨rfl, -⟩
        rfl
    · rename_i hstop
      simp only [not_not] at hstop
      constructor
      · intro h
        exact absurd h (by simp)
      · rintro ⟨rfl, hall⟩
        exact absurd hstop (hall inst heq)

/-! ### Generic list helpers -/

theorem mem_of_getLast?_eq_some {α : Type} {l : List α} {a : α}
    (h : l.getLast? = some a) : a ∈ l := by
  rcases List.mem_getLast?_eq_getLast (Option.mem_def.mpr h) with ⟨hne, rfl⟩
  exact List.getLast_mem hne

theorem eq_of_mem_of_id_eq {l : List ReadingSession}
    (hp : l.Pairwise (fun a c => a.id ≠ c.id)) {x y : ReadingSession}
    (hx : x ∈ l) (hy : y ∈ l) (hid : x.id = y.id) : x = y := by
  induction l with
  | nil => cases hx
  | cons hd tl ih =>
    rcases List.pairwise_cons.mp hp with ⟨hhd, htl⟩
    rcases List.mem_cons.mp hx with rfl | hx'
    · rcases List.mem_cons.mp hy with rfl | hy'
      · rfl
      · exact absurd hid (hhd y hy')
    · rcases List.mem_cons.mp hy with rfl | hy'
      · exact absurd hid.symm (hhd x hx')
      · exact ih htl hx' hy'

theorem filter_eq_singleton_of_le_one {α : Type} {l : List α} {p : α → Bool} {x : α}
    (hlen : (l.filter p).length ≤ 1) (hx : x ∈ l) (hpx : p x = true) :
    l.filter p = [x] := by
  have hmem : x ∈ l.filter p := List.mem_filter.mpr ⟨hx, hpx⟩
  have hne : l.filter p ≠ [] := List.ne_nil_of_mem hmem
  have h1 : (l.filter p).length = 1 :=
    le_antisymm hlen (List.length_pos.mpr hne)
  obtain ⟨a, ha⟩ := List.length_eq_one.mp h1
  rw [ha] at hmem ⊢
  rw [List.mem_singleton.mp hmem]

/-! ### Invariant preservation -/

theorem timesWF_mono {s : Store} {t t' : ℤ} (h : timesWF s t) (hle : t ≤ t') :
    timesWF s t' := by
  intro r hr
  obtain ⟨a, ha, hat, hstop⟩ := h r hr
  exact ⟨a, ha, le_trans hat hle, fun st hst =>
    ⟨(hstop st hst).1, le_trans (hstop st hst).2 hle⟩⟩

theorem startReading_preserves_inv {s : Store} {t now : ℤ} {u b : Nat}
    {s' : Store} {rN : ReadingSession}
    (hinv : StoreInv s t) (hle : t ≤ now)
    (h : startReading s u b now = .ok (s', rN)) : StoreInv s' now := by
  obtain ⟨hb, hd, ho, hw⟩ := hinv
  obtain ⟨hrN, hnext, hsess⟩ := startReading_ok_shape h
  refine ⟨?_, ?_, ?_, ?_⟩
  · intro r hr
    rw [hsess] at hr
    rw [hnext]
    rcases List.mem_append.mp hr with hr | hr
    · rcases List.mem_map.mp hr with ⟨y, hy, rfl⟩
      rw [closeFor_id]
      have := hb y hy
      omega
    · rw [List.mem_singleton.mp hr, hrN]
      exact Nat.lt_succ_self _
  · rw [idsDistinct, hsess]
    rw [List.pairwise_append]
    refine ⟨?_, List.pairwise_singleton _ _, ?_⟩
    · exact List.pairwise_map.mpr (hd.imp (fun hab => by
        rw [closeFor_id, closeFor_id]; exact hab))
    · intro a ha c hc
      rcases List.mem_map.mp ha with ⟨y, hy, rfl⟩
      rw [List.mem_singleton.mp hc, hrN, closeFor_id]
      exact Nat.ne_of_lt (hb y hy)
  · intro u'
    rw [hsess, List.filter_append]
    by_cases huu : u' = u
    · subst huu
      have h1 : (s.sessions.map (closeFor u' now)).filter (isActiveFor u') = [] := by
        rw [List.filter_eq_nil_iff]
        intro a ha
        rcases List.mem_map.mp ha with ⟨y, hy, rfl⟩
        rw [isActiveFor_closeFor]
        simp [Bool.not_and_self]
      have h2 : isActiveFor u' rN = true := by
        rw [hrN]; simp [isActiveFor]
      simp [h1, h2]
    · have h2 : isActiveFor u' rN = false := by
        rw [hrN]
        simp only [isActiveFor]
        have : (u == u') = false := by
          simpa using fun hc => huu hc.symm
        simp [this]
      have h1 : ((s.sessions.map (closeFor u now)).filter (isActiveFor u')).length ≤
          (s.sessions.filter (isActiveFor u')).length := by
        rw [← List.countP_eq_length_filter, ← List.countP_eq_length_filter,
          List.countP_map]
        apply List.countP_mono_left
        intro x _ hpx
        have hthis : isActiveFor u' (closeFor u now x) = true := hpx
        rw [isActiveFor_closeFor] at hthis
        simp only [Bool.and_eq_true] at hthis
        exact hthis.2
      have h3 : (List.filter (isActiveFor u') [rN]).length = 0 := by
        simp [List.filter_cons, h2]
      have h4 := ho u'
      rw [List.length_append, h3]
      omega
  · intro r hr
    rw [hsess] at hr
    rcases List.mem_append.mp hr with hr | hr
    · rcases List.mem_map.mp hr with ⟨y, hy, rfl⟩
      obtain ⟨a, hay, hat, hstop⟩ := hw y hy
      by_cases hact : isActiveFor u y = true
      · refine ⟨a, ?_, hat.trans hle, ?_⟩
        · simp [closeFor, hact, hay]
        · intro st hst
          have : st = now := by
            simp [closeFor, hact] at hst
            exact hst.symm
          subst this
          exact ⟨hat.trans hle, le_refl _⟩
      · rw [closeFor_of_not_active (by simpa using hact)]
        exact ⟨a, hay, hat.trans hle, fun st hst =>
          ⟨(hstop st hst).1, (hstop st hst).2.trans hle⟩⟩
    · rw [List.mem_singleton.mp hr, hrN]
      exact ⟨now, rfl, le_refl _, fun st hst => by cases hst⟩

theorem stopReading_preserves_inv {s : Store} {t now : ℤ} {u b : Nat}
    {s' : Store} {r' : ReadingSession}
    (hinv : StoreInv s t) (hle : t ≤ now)
    (h : stopReading s u b now = .ok (s', r')) : StoreInv s' now := by
  obtain ⟨hb, hd, ho, hw⟩ := hinv
  obtain ⟨inst, hlast, hinstop, hr', hnext, hsess⟩ := stopReading_ok_shape h
  have hinstMem : inst ∈ s.sessions := by
    have := mem_of_getLast?_eq_some hlast
    exact (List.mem_filter.mp this).1
  have hgid : ∀ x : ReadingSession,
      (if x.id == inst.id then r' else x).id = x.id := by
    intro x
    split
    · rename_i hx
      rw [hr']
      exact (eq_of_beq hx).symm
    · rfl
  refine ⟨?_, ?_, ?_, ?_⟩
  · intro r hr
    rw [hsess] at hr
    rw [hnext]
    rcases List.mem_map.mp hr with ⟨y, hy, rfl⟩
    rw [hgid]
    exact hb y hy
  · rw [idsDistinct, hsess]
    exact List.pairwise_map.mpr (hd.imp (fun hab => by
      rw [hgid, hgid]; exact hab))
  · intro u'
    rw [hsess]
    have : ((s.sessions.map (fun x => if x.id == inst.id then r' else x)).filter
        (isActiveFor u')).length ≤ (s.sessions.filter (isActiveFor u')).length := by
      rw [← List.countP_eq_length_filter, ← List.countP_eq_length_filter,
        List.countP_map]
      apply List.countP_mono_left
      intro x _ hpx
      have hpx' : isActiveFor u' (if x.id == inst.id then r' else x) = true := hpx
      split at hpx'
      · rw [hr'] at hpx'
        simp [isActiveFor] at hpx'
      · exact hpx'
    exact this.trans (ho u')
  · intro r hr
    rw [hsess] at hr
    rcases List.mem_map.mp hr with ⟨y, hy, rfl⟩
    split
    · obtain ⟨a, hay, hat, -⟩ := hw inst hinstMem
      refine ⟨a, ?_, hat.trans hle, ?_⟩
      · rw [hr']
        exact hay
      · intro st hst
        rw [hr'] at hst
        have : st = now := by simpa using hst.symm
        subst this
        exact ⟨hat.trans hle, le_refl _⟩
    · obtain ⟨a, hay, hat, hstop⟩ := hw y hy
      exact ⟨a, hay, hat.trans hle, fun st hst =>
        ⟨(hstop st hst).1, (hstop st hst).2.trans hle⟩⟩

theorem storeInv_emptyStore (t : ℤ) : StoreInv emptyStore t := by
  refine ⟨?_, ?_, ?_, ?_⟩
  · intro r hr; cases hr
  · exact List.Pairwise.nil
  · intro u; simp [emptyStore]
  · intro r hr; cases hr

/-- Every reachable state satisfies all store invariants. -/
theorem storeInv_reach {s : Store} {t : ℤ} (h : Reach s t) : StoreInv s t := by
  induction h with
  | init t => exact storeInv_emptyStore t
  | step op hre hle ih =>
    rcases op with ⟨u, b, n⟩ | ⟨u, b, n⟩
    · simp only [applyOp]
      rcases hres : startReading _ u b n with e | ⟨s', rN⟩
      · exact ⟨ih.1, ih.2.1, ih.2.2.1, timesWF_mono ih.2.2.2 hle⟩
      · exact startReading_preserves_inv ih hle hres
    · simp only [applyOp]
      rcases hres : stopReading _ u b n with e | ⟨s', r'⟩
      · exact ⟨ih.1, ih.2.1, ih.2.2.1, timesWF_mono ih.2.2.2 hle⟩
      · exact stopReading_preserves_inv ih hle hres

/-! ### Claim C1: single open session per user in every reachable state -/

/-- C1: for every user `u` and every state reachable by any sequence of
start/stop operations run to completion, at most one session of `u` has a
null `stop_reading`. -/
theorem single_open_session_invariant {s : Store} {t : ℤ} (h : Reach s t)
    (u : Nat) : (s.sessions.filter (isActiveFor u)).length ≤ 1 :=
  (storeInv_reach h).2.2.1 u

/-- Witness for C1 at a concrete reachable state (one start, then a second
start on another book). -/
theorem single_open_session_invariant_witness :
    ((applyOp (applyOp emptyStore (.start 1 10 2)) (.start 1 11 5)).sessions.filter
      (isActiveFor 1)).length ≤ 1 :=
  single_open_session_invariant
    (Reach.step (.start 1 11 5)
      (Reach.step (.start 1 10 2) (Reach.init 0) (by decide)) (by decide)) 1

/-! ### Claim C3: duplicate start on the same book is rejected, no mutation -/

/-- C3: when the user already has an open session for the requested book,
starting it again fails with the conflict message and mutates nothing. -/
theorem duplicate_start_rejected {s : Store} {r : ReadingSession}
    (hr : r ∈ s.sessions) {u b : Nat} (hu : r.user = u) (hb : r.book = b)
    (hopen : r.stop_reading = none) (now : ℤ) :
    startReading s u b now = .error "Active reading session already exists" ∧
    applyOp s (.start u b now) = s := by
  have hact : isActiveFor u r = true := by
    simp [isActiveFor, hu, hopen]
  have herr : startReading s u b now =
      .error "Active reading session already exists" :=
    startReading_error_iff.mpr ⟨rfl, r, hr, hact, hb⟩
  refine ⟨herr, ?_⟩
  simp only [applyOp]
  rw [herr]

/-- Witness for C3: starting book 10 twice in a row for user 1. -/
theorem duplicate_start_rejected_witness :
    startReading ⟨[⟨0, 1, 10, some 2, none⟩], 1⟩ 1 10 5 =
      .error "Active reading session already exists" ∧
    applyOp ⟨[⟨0, 1, 10, some 2, none⟩], 1⟩ (.start 1 10 5) =
      ⟨[⟨0, 1, 10, some 2, none⟩], 1⟩ :=
  duplicate_start_rejected (r := ⟨0, 1, 10, some 2, none⟩)
    (by simp) rfl rfl rfl 5

/-! ### Claim C10: a successful start closes every open session of the user -/

/-- C10: from any starting state (even one with several open sessions on
other books), a successful start closes all of the user's open sessions at
`now`, and afterwards the user's only open session is the newly created one. -/
theorem start_success_single_open {s : Store} {u b : Nat} {now : ℤ}
    {s' : Store} {rN : ReadingSession}
    (h : startReading s u b now = .ok (s', rN)) :
    s'.sessions.filter (isActiveFor u) = [rN] ∧
    ∀ r ∈ s.sessions, isActiveFor u r = true →
      { r with stop_reading := some now } ∈ s'.sessions := by
  obtain ⟨hrN, -, hsess⟩ := startReading_ok_shape h
  constructor
  · rw [hsess, List.filter_append]
    have h1 : (s.sessions.map (closeFor u now)).filter (isActiveFor u) = [] := by
      rw [List.filter_eq_nil_iff]
      intro a ha
      rcases List.mem_map.mp ha with ⟨y, hy, rfl⟩
      rw [isActiveFor_closeFor]
      simp [Bool.not_and_self]
    have h2 : isActiveFor u rN = true := by
      rw [hrN]; simp [isActiveFor]
    simp [h1, h2]
  · intro r hr hact
    rw [hsess]
    refine List.mem_append.mpr (Or.inl ?_)
    refine List.mem_map.mpr ⟨r, hr, ?_⟩
    simp [closeFor, hact]

/-- Witness for C10 at a state that violates the single-open invariant:
user 1 has open sessions on books 10 and 11 and starts book 12. -/
theorem start_success_single_open_witness :
    startReading ⟨[⟨0, 1, 10, some 1, none⟩, ⟨1, 1, 11, some 2, none⟩], 2⟩ 1 12 4 =
      .ok (⟨[⟨0, 1, 10, some 1, some 4⟩, ⟨1, 1, 11, some 2, some 4⟩,
             ⟨2, 1, 12, some 4, none⟩], 3⟩, ⟨2, 1, 12, some 4, none⟩) ∧
    ((⟨[⟨0, 1, 10, some 1, some 4⟩, ⟨1, 1, 11, some 2, some 4⟩,
        ⟨2, 1, 12, some 4, none⟩], 3⟩ : Store).sessions.filter (isActiveFor 1) =
      [⟨2, 1, 12, some 4, none⟩] ∧
     ∀ r ∈ (⟨[⟨0, 1, 10, some 1, none⟩, ⟨1, 1, 11, some 2, none⟩], 2⟩ :
        Store).sessions, isActiveFor 1 r = true →
       { r with stop_reading := some 4 } ∈
         (⟨[⟨0, 1, 10, some 1, some 4⟩, ⟨1, 1, 11, some 2, some 4⟩,
            ⟨2, 1, 12, some 4, none⟩], 3⟩ : Store).sessions) :=
  ⟨rfl, start_success_single_open
    (show startReading
        ⟨[⟨0, 1, 10, some 1, none⟩, ⟨1, 1, 11, some 2, none⟩], 2⟩ 1 12 4 =
      .ok (⟨[⟨0, 1, 10, some 1, some 4⟩, ⟨1, 1, 11, some 2, some 4⟩,
             ⟨2, 1, 12, some 4, none⟩], 3⟩, ⟨2, 1, 12, some 4, none⟩)
      from rfl)⟩

/-! ### Claim C2: starting a different book auto-closes the open session -/

/-- In a state with distinct ids and at most one open session per user, the
bulk close of `startReading` is an update of the single open session by id. -/
theorem closeFor_eq_update_by_id {s : Store} (hd : idsDistinct s)
    (ho : openAtMostOne s) {r : ReadingSession} (hr : r ∈ s.sessions) {u : Nat}
    (hact : isActiveFor u r = true) (now : ℤ) :
    s.sessions.map (closeFor u now) =
      s.sessions.map (fun x =>
        if x.id == r.id then { x with stop_reading := some now } else x) := by
  apply List.map_congr_left
  intro x hx
  have hsingle : s.sessions.filter (isActiveFor u) = [r] :=
    filter_eq_singleton_of_le_one (ho u) hr hact
  by_cases hxact : isActiveFor u x = true
  · have hx' : x ∈ s.sessions.filter (isActiveFor u) :=
      List.mem_filter.mpr ⟨hx, hxact⟩
    rw [hsingle, List.mem_singleton] at hx'
    subst hx'
    simp [closeFor, hxact]
  · have hxf : isActiveFor u x = false := by simpa using hxact
    rw [closeFor_of_not_active hxf]
    have hne : (x.id == r.id) = false := by
      rw [beq_eq_false_iff_ne]
      intro hid
      have hxr : x = r := eq_of_mem_of_id_eq hd hx hr hid
      rw [hxr, hact] at hxf
      exact Bool.noConfusion hxf
    simp [hne]

/-- C2: when the user's open session (unique in any reachable state) is on a
different book, a start succeeds: it closes exactly that session at `now`,
creates a new open session on the requested book at `now`, and returns it. -/
theorem start_switches_book {s : Store} {t : ℤ} (hreach : Reach s t)
    {r : ReadingSession} (hr : r ∈ s.sessions) {u bA bB : Nat}
    (hu : r.user = u) (hA : r.book = bA) (hopen : r.stop_reading = none)
    (hne : bA ≠ bB) (now : ℤ) :
    startReading s u bB now =
      .ok (⟨s.sessions.map (fun x =>
              if x.id == r.id then { x with stop_reading := some now } else x)
            ++ [⟨s.nextId, u, bB, some now, none⟩], s.nextId + 1⟩,
           ⟨s.nextId, u, bB, some now, none⟩) := by
  obtain ⟨-, hd, ho, -⟩ := storeInv_reach hreach
  have hact : isActiveFor u r = true := by simp [isActiveFor, hu, hopen]
  have hsingle : s.sessions.filter (isActiveFor u) = [r] :=
    filter_eq_singleton_of_le_one (ho u) hr hact
  have hrb : (r.book == bB) = false := by
    rw [hA]; exact beq_eq_false_iff_ne.mpr hne
  have hupd := closeFor_eq_update_by_id hd ho hr hact now
  simp only [startReading, hsingle, hupd]
  simp [List.filter_cons, hrb]

/-- Witness for C2: user 1 reads book 10, then starts book 11; the open
session on book 10 is closed at the switch instant. -/
theorem start_switches_book_witness :
    (10 ≠ 11) ∧
    startReading ⟨[⟨0, 1, 10, some 2, none⟩], 1⟩ 1 11 5 =
      .ok (⟨[⟨0, 1, 10, some 2, some 5⟩, ⟨1, 1, 11, some 5, none⟩], 2⟩,
           ⟨1, 1, 11, some 5, none⟩) := by
  refine ⟨by decide, ?_⟩
  have h := start_switches_book
    (s := ⟨[⟨0, 1, 10, some 2, none⟩], 1⟩) (t := 2)
    (Reach.step (.start 1 10 2) (Reach.init 0) (by decide))
    (r := ⟨0, 1, 10, some 2, none⟩) (u := 1)
    (by simp) rfl
    (show (⟨0, 1, 10, some 2, none⟩ : ReadingSession).book = 10 from rfl)
    rfl (show 10 ≠ 11 by decide) 5
  simpa using h

/-! ### Claim C4: stop semantics and idempotence failure on the second stop -/

/-- Updating the last (user, book) session in place (same user and book)
keeps it the last (user, book) session, when ids are distinct. -/
theorem lastSession_map_update {s : Store} (hd : idsDistinct s) {u b : Nat}
    {r : ReadingSession} (hlast : lastSession s u b = some r)
    (r' : ReadingSession) (hu : r'.user = r.user) (hb : r'.book = r.book)
    (n : Nat) :
    lastSession ⟨s.sessions.map (fun x => if x.id == r.id then r' else x), n⟩
      u b = some r' := by
  have hrmem : r ∈ s.sessions.filter (fun x => x.user == u && x.book == b) :=
    mem_of_getLast?_eq_some hlast
  have hrses : r ∈ s.sessions := (List.mem_filter.mp hrmem).1
  have hrpred : (r.user == u && r.book == b) = true :=
    (List.mem_filter.mp hrmem).2
  unfold lastSession
  rw [List.filter_map]
  have hcong : s.sessions.filter
      ((fun x => x.user == u && x.book == b) ∘
        (fun x => if x.id == r.id then r' else x)) =
      s.sessions.filter (fun x => x.user == u && x.book == b) := by
    apply List.filter_congr
    intro x hx
    simp only [Function.comp]
    split
    · rename_i hid
      have hxr : x = r := eq_of_mem_of_id_eq hd hx hrses (eq_of_beq hid)
      rw [hxr, hu, hb]
    · rfl
  rw [hcong, List.getLast?_map]
  unfold lastSession at hlast
  rw [hlast]
  simp

/-- C4: a stop fails with the validation message and mutates nothing exactly
when the user's most recently created session for the book is missing or
already closed; otherwise it closes that session at `now` (start time
untouched, so both timestamps are then populated), and a second stop on the
resulting state fails with the validation message. -/
theorem stop_semantics {s : Store} {t : ℤ} (hreach : Reach s t) (u b : Nat)
    (now now2 : ℤ) :
    (stopReading s u b now = .error "Session is not active" ↔
      ∀ r, lastSession s u b = some r → r.stop_reading ≠ none) ∧
    (stopReading s u b now = .error "Session is not active" →
      applyOp s (.stop u b now) = s) ∧
    (∀ r, lastSession s u b = some r → r.stop_reading = none →
      ∃ a, r.start_reading = some a ∧
        stopReading s u b now =
          .ok (⟨s.sessions.map (fun x =>
                  if x.id == r.id then { r with stop_reading := some now } else x),
                s.nextId⟩,
               { r with stop_reading := some now }) ∧
        stopReading ⟨s.sessions.map (fun x =>
            if x.id == r.id then { r with stop_reading := some now } else x),
          s.nextId⟩ u b now2 = .error "Session is not active") := by
  obtain ⟨-, hd, -, hw⟩ := storeInv_reach hreach
  refine ⟨?_, ?_, ?_⟩
  · constructor
    · intro h
      exact (stopReading_error_iff.mp h).2
    · intro h
      exact stopReading_error_iff.mpr ⟨rfl, h⟩
  · intro herr
    simp only [applyOp]
    rw [herr]
  · intro r hlast hstop
    have hrses : r ∈ s.sessions :=
      (List.mem_filter.mp (mem_of_getLast?_eq_some hlast)).1
    obtain ⟨a, ha, -, -⟩ := hw r hrses
    have hok : stopReading s u b now =
        .ok (⟨s.sessions.map (fun x =>
                if x.id == r.id then { r with stop_reading := some now } else x),
              s.nextId⟩,
             { r with stop_reading := some now }) := by
      unfold stopReading
      rw [hlast]
      simp [hstop]
    refine ⟨a, ha, hok, ?_⟩
    have hlast2 := lastSession_map_update hd hlast
      { r with stop_reading := some now } rfl rfl s.nextId
    unfold stopReading
    rw [hlast2]
    simp

/-- Witness for C4: stopping the open session of user 1 on book 10 succeeds
once and fails the second time. -/
theorem stop_semantics_witness :
    stopReading ⟨[⟨0, 1, 10, some 2, none⟩], 1⟩ 1 10 6 =
      .ok (⟨[⟨0, 1, 10, some 2, some 6⟩], 1⟩, ⟨0, 1, 10, some 2, some 6⟩) ∧
    stopReading ⟨[⟨0, 1, 10, some 2, some 6⟩], 1⟩ 1 10 9 =
      .error "Session is not active" := by
  have h := (stop_semantics (s := ⟨[⟨0, 1, 10, some 2, none⟩], 1⟩) (t := 2)
    (Reach.step (.start 1 10 2) (Reach.init 0) (by decide)) 1 10 6 9).2.2
    ⟨0, 1, 10, some 2, none⟩ rfl rfl
  rcases h with ⟨a, -, hok, herr2⟩
  exact ⟨by simpa using hok, by simpa using herr2⟩

/-! ### Claim C8: no sessions for (user, book) gives total 0, not an error -/

/-- C8: `statistic` returns 0 (not an error) when the user has no reading
sessions for the book. -/
theorem statistic_zero_when_no_sessions {s : Store} {u b : Nat}
    (h : ∀ r ∈ s.sessions, ¬(r.user = u ∧ r.book = b)) :
    statistic s u b = 0 := by
  have hfil : s.sessions.filter (fun r => r.user == u && r.book == b) = [] := by
    rw [List.filter_eq_nil_iff]
    intro r hr hc
    simp only [Bool.and_eq_true, beq_iff_eq] at hc
    exact h r hr hc
  simp [statistic, hfil, sqlSum, truthyOr0, toSecondsTrunc, Int.zero_tdiv]

/-- Witness for C8: user 1 has no sessions for book 10 (only user 2 does). -/
theorem statistic_zero_when_no_sessions_witness :
    (∀ r ∈ (⟨[⟨0, 2, 10, some 1, some 5⟩], 1⟩ : Store).sessions,
      ¬(r.user = 1 ∧ r.book = 10)) ∧
    statistic ⟨[⟨0, 2, 10, some 1, some 5⟩], 1⟩ 1 10 = 0 :=
  ⟨by decide, statistic_zero_when_no_sessions (by decide)⟩

/-! ### Claim C7: open sessions contribute zero everywhere -/

theorem sessionDuration_of_open {r : ReadingSession}
    (h : r.stop_reading = none) : sessionDuration r = none := by
  cases hs : r.start_reading <;> simp [sessionDuration, h, hs]

theorem sqlSum_congr {l l' : List (Option ℤ)}
    (h : l.filterMap id = l'.filterMap id) : sqlSum l = sqlSum l' := by
  simp only [sqlSum, h]

theorem filterMap_duration_drop_open {l1 l2 : List ReadingSession}
    {r : ReadingSession} (hopen : r.stop_reading = none)
    (q : ReadingSession → Bool) :
    (((l1 ++ r :: l2).filter q).map sessionDuration).filterMap id =
      (((l1 ++ l2).filter q).map sessionDuration).filterMap id := by
  by_cases hq : q r = true
  · simp [List.filter_append, List.filter_cons, hq, List.map_append,
      List.filterMap_append, List.filterMap_cons, sessionDuration_of_open hopen]
  · simp [List.filter_append, List.filter_cons, hq]

/-- C7: a session with null `stop_reading` contributes exactly zero: deleting
it from the table changes neither the per-book statistic nor anything the
aggregation run writes. -/
theorem open_session_contributes_zero {L M : List ReadingSession}
    {r : ReadingSession} (hopen : r.stop_reading = none) (u b : Nat)
    (n1 n2 : Nat) (profiles : List Profile) (now : ℤ) :
    statistic ⟨L ++ r :: M, n1⟩ u b = statistic ⟨L ++ M, n2⟩ u b ∧
    reading_time_statistic profiles (L ++ r :: M) now =
      reading_time_statistic profiles (L ++ M) now := by
  constructor
  · unfold statistic
    exact congrArg toSecondsTrunc (congrArg truthyOr0
      (sqlSum_congr (filterMap_duration_drop_open hopen _)))
  · have hwin : ∀ u' c, windowAggregate (L ++ r :: M) u' c =
        windowAggregate (L ++ M) u' c := by
      intro u' c
      have hq : stopInWindow u' c r = false := by
        simp [stopInWindow, hopen]
      unfold windowAggregate
      simp [List.filter_append, List.filter_cons, hq]
    have hstep : aggregateStep (L ++ r :: M) now =
        aggregateStep (L ++ M) now := by
      funext table profile
      simp only [aggregateStep, hwin]
    unfold reading_time_statistic
    rw [hstep]

/-- Witness for C7: dropping user 1's open session on book 10 changes neither
the book-10 statistic nor the aggregation output. -/
theorem open_session_contributes_zero_witness :
    statistic ⟨[⟨0, 1, 10, some 1, some 5⟩, ⟨1, 1, 10, some 7, none⟩], 2⟩ 1 10 =
      statistic ⟨[⟨0, 1, 10, some 1, some 5⟩], 1⟩ 1 10 ∧
    reading_time_statistic [⟨0, 1, 0, 0⟩]
        [⟨0, 1, 10, some 1, some 5⟩, ⟨1, 1, 10, some 7, none⟩] 20 =
      reading_time_statistic [⟨0, 1, 0, 0⟩] [⟨0, 1, 10, some 1, some 5⟩] 20 :=
  open_session_contributes_zero
    (L := [⟨0, 1, 10, some 1, some 5⟩]) (M := []) rfl 1 10 2 1 [⟨0, 1, 0, 0⟩] 20

/-! ### Claim C5: what one aggregation run writes -/

theorem toSecondsTrunc_truthyOr0_some (S : ℤ) :
    toSecondsTrunc (truthyOr0 (some S)) = toSecondsTrunc S := by
  by_cases h : S = 0
  · simp [truthyOr0, h]
  · simp [truthyOr0, h]

/-- For nonnegative microsecond counts, Python truncation agrees with the
mathematical floor of the division by 10^6. -/
theorem toSecondsTrunc_eq_floor {n : ℤ} (hn : 0 ≤ n) :
    toSecondsTrunc n = ⌊(n : ℚ) / 1000000⌋ := by
  unfold toSecondsTrunc
  rw [Int.tdiv_eq_ediv hn (by norm_num)]
  rw [show ((1000000 : ℚ)) = ((1000000 : ℕ) : ℚ) by norm_num]
  rw [Rat.floor_intCast_div_natCast]
  norm_num

theorem filterMap_id_map_all_some {α : Type} {l : List α} {f : α → Option ℤ}
    {g : α → ℤ} (h : ∀ x ∈ l, f x = some (g x)) :
    (l.map f).filterMap id = l.map g := by
  induction l with
  | nil => rfl
  | cons hd tl ih =>
    have hhd := h hd (List.mem_cons_self hd tl)
    simp [hhd, ih (fun x hx => h x (List.mem_cons_of_mem hd hx))]

/-- The written total for one window equals the floor of the full-duration
sum (in seconds) over the user's sessions whose stop time is in the window,
provided every session starts no later than it stops. -/
theorem window_total_eq_spec {sessions : List ReadingSession} {u : Nat}
    {cutoff : ℤ}
    (hwf : ∀ r ∈ sessions, ∃ a, r.start_reading = some a ∧
        ∀ st, r.stop_reading = some st → a ≤ st) :
    toSecondsTrunc (truthyOr0 (windowAggregate sessions u cutoff)) =
      ⌊(((((sessions.filter (stopInWindow u cutoff)).map
          (fun r => r.stop_reading.getD 0 - r.start_reading.getD 0)).sum : ℤ) : ℚ)
        / 1000000)⌋ := by
  have hmem : ∀ r ∈ sessions.filter (stopInWindow u cutoff),
      sessionDuration r =
        some (r.stop_reading.getD 0 - r.start_reading.getD 0) ∧
      0 ≤ r.stop_reading.getD 0 - r.start_reading.getD 0 := by
    intro r hr
    have hrs : r ∈ sessions := (List.mem_filter.mp hr).1
    have hrp : stopInWindow u cutoff r = true := (List.mem_filter.mp hr).2
    obtain ⟨a, ha, hle⟩ := hwf r hrs
    rcases hst : r.stop_reading with _ | st
    · rw [stopInWindow, hst] at hrp
      simp at hrp
    · have hord := hle st hst
      constructor
      · simp [sessionDuration, ha, hst]
      · simp only [ha, hst, Option.getD_some]
        omega
  have hfm := filterMap_id_map_all_some (fun x hx => (hmem x hx).1)
  rcases hcase : sessions.filter (stopInWindow u cutoff) with _ | ⟨hd, tl⟩
  · rw [windowAggregate, hcase]
    simp [sqlSum, truthyOr0, toSecondsTrunc, Int.zero_tdiv]
  · rw [← hcase]
    have hne : (sessions.filter (stopInWindow u cutoff)).map
        (fun r => r.stop_reading.getD 0 - r.start_reading.getD 0) ≠ [] := by
      rw [hcase]
      simp
    rw [windowAggregate, sqlSum, hfm]
    simp only [List.isEmpty_iff]
    rw [if_neg hne]
    rw [toSecondsTrunc_truthyOr0_some]
    apply toSecondsTrunc_eq_floor
    exact List.sum_nonneg (by
      intro x hx
      rcases List.mem_map.mp hx with ⟨y, hy, rfl⟩
      exact (hmem y hy).2)

/-- Profiles whose id never occurs in the remaining worklist pass through the
aggregation fold untouched. -/
theorem foldl_agg_keep {sessions : List ReadingSession} {now : ℤ}
    (l : List Profile) {table : List Profile} {q : Profile}
    (hq : q ∈ table) (h : ∀ x ∈ l, x.id ≠ q.id) :
    q ∈ l.foldl (aggregateStep sessions now) table := by
  induction l generalizing table with
  | nil => exact hq
  | cons hd tl ih =>
    rw [List.foldl_cons]
    refine ih ?_ (fun x hx => h x (List.mem_cons_of_mem hd hx))
    simp only [aggregateStep]
    refine List.mem_map.mpr ⟨q, hq, ?_⟩
    have hne : (q.id == hd.id) = false := by
      rw [beq_eq_false_iff_ne]
      exact fun hc => (h hd (List.mem_cons_self hd tl)) hc.symm
    simp [hne]

/-- Processing the unique profile with a given id rewrites exactly its two
totals; everything before and after leaves that row alone. -/
theorem foldl_agg_update {sessions : List ReadingSession} {now : ℤ}
    (l1 l2 : List Profile) (p : Profile) {table : List Profile} {q : Profile}
    (hq : q ∈ table) (hid : q.id = p.id)
    (h1 : ∀ x ∈ l1, x.id ≠ p.id) (h2 : ∀ x ∈ l2, x.id ≠ p.id) :
    { q with
      total_reading_7days := toSecondsTrunc
        (truthyOr0 (windowAggregate sessions p.user (now - sevenDays))),
      total_reading_30days := toSecondsTrunc
        (truthyOr0 (windowAggregate sessions p.user (now - thirtyDays))) }
      ∈ (l1 ++ p :: l2).foldl (aggregateStep sessions now) table := by
  rw [List.foldl_append, List.foldl_cons]
  refine foldl_agg_keep l2 ?_ (fun x hx hc => h2 x hx (hc.trans hid))
  have hq1 : q ∈ l1.foldl (aggregateStep sessions now) table :=
    foldl_agg_keep l1 hq (fun x hx hc => h1 x hx (hc.trans hid))
  simp only [aggregateStep]
  refine List.mem_map.mpr ⟨q, hq1, ?_⟩
  simp [beq_iff_eq.mpr hid]

/-- C5: one aggregation run rewrites every profile's totals to the
fractional-part-discarding truncation, in whole seconds, of the sum of full
durations `stop - start` over the user's sessions (all books) whose stop time
lies in the trailing 7-day window, and likewise for the 30-day window. -/
theorem aggregation_run_totals {profiles : List Profile}
    {sessions : List ReadingSession} {now : ℤ}
    (hids : profiles.Pairwise (fun a c => a.id ≠ c.id))
    (hwf : ∀ r ∈ sessions, ∃ a, r.start_reading = some a ∧
        ∀ st, r.stop_reading = some st → a ≤ st)
    {p : Profile} (hp : p ∈ profiles) :
    ∃ p' ∈ reading_time_statistic profiles sessions now,
      p'.id = p.id ∧ p'.user = p.user ∧
      p'.total_reading_7days =
        ⌊(((((sessions.filter (stopInWindow p.user (now - sevenDays))).map
            (fun r => r.stop_reading.getD 0 - r.start_reading.getD 0)).sum : ℤ) : ℚ)
          / 1000000)⌋ ∧
      p'.total_reading_30days =
        ⌊(((((sessions.filter (stopInWindow p.user (now - thirtyDays))).map
            (fun r => r.stop_reading.getD 0 - r.start_reading.getD 0)).sum : ℤ) : ℚ)
          / 1000000)⌋ := by
  obtain ⟨l1, l2, rfl⟩ := List.mem_iff_append.mp hp
  rw [List.pairwise_append] at hids
  obtain ⟨-, hpl2, hcross⟩ := hids
  have h1 : ∀ x ∈ l1, x.id ≠ p.id :=
    fun x hx => hcross x hx p (List.mem_cons_self p l2)
  have h2 : ∀ x ∈ l2, x.id ≠ p.id := by
    intro x hx hc
    exact (List.pairwise_cons.mp hpl2).1 x hx hc.symm
  refine ⟨{ p with
      total_reading_7days := toSecondsTrunc
        (truthyOr0 (windowAggregate sessions p.user (now - sevenDays))),
      total_reading_30days := toSecondsTrunc
        (truthyOr0 (windowAggregate sessions p.user (now - thirtyDays))) },
    ?_, rfl, rfl, ?_, ?_⟩
  · unfold reading_time_statistic
    exact foldl_agg_update l1 l2 p
      (List.mem_append.mpr (Or.inr (List.mem_cons_self p l2))) rfl h1 h2
  · exact window_total_eq_spec hwf
  · exact window_total_eq_spec hwf

/-- Witness for C5: sessions of 1h, 2h, 3h closing 5, 15 and 35 days before
the run instant (day 40) give totals 3600 and 10800 seconds. -/
theorem aggregation_run_totals_witness :
    (∃ p' ∈ reading_time_statistic [⟨0, 1, 0, 0⟩]
        [⟨0, 1, 10, some 3020400000000, some 3024000000000⟩,
         ⟨1, 1, 10, some 2152800000000, some 2160000000000⟩,
         ⟨2, 1, 11, some 421200000000, some 432000000000⟩] 3456000000000,
      p'.id = 0 ∧ p'.user = 1 ∧
      p'.total_reading_7days =
        ⌊((((([⟨0, 1, 10, some 3020400000000, some 3024000000000⟩,
               ⟨1, 1, 10, some 2152800000000, some 2160000000000⟩,
               ⟨2, 1, 11, some 421200000000, some 432000000000⟩].filter
            (stopInWindow 1 (3456000000000 - sevenDays))).map
            (fun r => r.stop_reading.getD 0 - r.start_reading.getD 0)).sum : ℤ) : ℚ)
          / 1000000)⌋ ∧
      p'.total_reading_30days =
        ⌊((((([⟨0, 1, 10, some 3020400000000, some 3024000000000⟩,
               ⟨1, 1, 10, some 2152800000000, some 2160000000000⟩,
               ⟨2, 1, 11, some 421200000000, some 432000000000⟩].filter
            (stopInWindow 1 (3456000000000 - thirtyDays))).map
            (fun r => r.stop_reading.getD 0 - r.start_reading.getD 0)).sum : ℤ) : ℚ)
          / 1000000)⌋) ∧
    reading_time_statistic [⟨0, 1, 0, 0⟩]
        [⟨0, 1, 10, some 3020400000000, some 3024000000000⟩,
         ⟨1, 1, 10, some 2152800000000, some 2160000000000⟩,
         ⟨2, 1, 11, some 421200000000, some 432000000000⟩] 3456000000000 =
      [⟨0, 1, 3600, 10800⟩] := by
  constructor
  · exact aggregation_run_totals (by simp)
      (by
        intro r hr
        simp only [List.mem_cons, List.not_mem_nil, or_false] at hr
        rcases hr with rfl | rfl | rfl
        · exact ⟨3020400000000, rfl, fun st hst => by cases hst; decide⟩
        · exact ⟨2152800000000, rfl, fun st hst => by cases hst; decide⟩
        · exact ⟨421200000000, rfl, fun st hst => by cases hst; decide⟩)
      (p := ⟨0, 1, 0, 0⟩) (List.mem_cons_self _ _)
  · decide

/-! ### Claim C6: no per-profile failure isolation in the aggregation run -/

/-- Running the loop over a worklist whose writes succeed until a failing
profile errors out with the table as updated so far. -/
theorem aggregateLoopF_prefix_ok {writeOk : Nat → Bool}
    {sessions : List ReadingSession} {now : ℤ} {p : Profile}
    (post : List Profile) (hp : writeOk p.id = false) :
    ∀ (pre : List Profile), (∀ q ∈ pre, writeOk q.id = true) →
      ∀ table : List Profile,
        aggregateLoopF writeOk sessions now table (pre ++ p :: post) =
          .error (pre.foldl (aggregateStep sessions now) table)
  | [], _, table => by
    simp only [List.nil_append, aggregateLoopF, hp]
    rfl
  | hd :: tl, hpre, table => by
    rw [List.cons_append]
    simp only [aggregateLoopF]
    rw [if_pos (hpre hd (List.mem_cons_self hd tl))]
    rw [List.foldl_cons]
    exact aggregateLoopF_prefix_ok post hp tl
      (fun q hq => hpre q (List.mem_cons_of_mem hd hq)) _

/-- C6 as stated is false on the code: the loop in user/tasks.py has no
exception handling, so a failing write on the first profile aborts the run
and the second profile keeps its stale totals instead of the recomputed
(3600, 3600). -/
theorem aggregation_failure_not_isolated :
    reading_time_statistic_failing (fun i => !(i == 1))
        [⟨1, 1, 0, 0⟩, ⟨2, 2, 0, 0⟩]
        [⟨0, 2, 10, some 0, some 3600000000⟩] 90000000000 =
      .error [⟨1, 1, 0, 0⟩, ⟨2, 2, 0, 0⟩] ∧
    reading_time_statistic [⟨1, 1, 0, 0⟩, ⟨2, 2, 0, 0⟩]
        [⟨0, 2, 10, some 0, some 3600000000⟩] 90000000000 =
      [⟨1, 1, 0, 0⟩, ⟨2, 2, 3600, 3600⟩] :=
  ⟨rfl, by decide⟩

/-- C6 (amended): a failure while processing one profile aborts the whole
run: profiles before the failing one keep their recomputed totals, while the
failing profile and every later one are left with their old rows. -/
theorem aggregation_aborts_at_failure {writeOk : Nat → Bool}
    {sessions : List ReadingSession} {now : ℤ}
    {pre post : List Profile} {p : Profile}
    (hpre : ∀ q ∈ pre, writeOk q.id = true) (hfail : writeOk p.id = false)
    (hids : (pre ++ p :: post).Pairwise (fun a c => a.id ≠ c.id)) :
    ∃ table,
      reading_time_statistic_failing writeOk (pre ++ p :: post) sessions now =
        .error table ∧
      table = pre.foldl (aggregateStep sessions now) (pre ++ p :: post) ∧
      ∀ q ∈ p :: post, q ∈ table := by
  refine ⟨_, ?_, rfl, ?_⟩
  · unfold reading_time_statistic_failing
    exact aggregateLoopF_prefix_ok post hfail pre hpre _
  · intro q hq
    rw [List.pairwise_append] at hids
    apply foldl_agg_keep pre (List.mem_append.mpr (Or.inr hq))
    intro x hx
    exact hids.2.2 x hx q hq

/-- Witness for the amended C6: the write for profile 1 succeeds, the write
for profile 2 fails, so the run errors out with profile 1 updated and
profile 2 untouched. -/
theorem aggregation_aborts_at_failure_witness :
    (∃ table,
      reading_time_statistic_failing (fun i => i == 1)
          ([⟨1, 1, 0, 0⟩] ++ ⟨2, 2, 0, 0⟩ :: [])
          [⟨0, 1, 10, some 0, some 3600000000⟩] 90000000000 =
        .error table ∧
      table = [⟨1, 1, 0, 0⟩].foldl
        (aggregateStep [⟨0, 1, 10, some 0, some 3600000000⟩] 90000000000)
        ([⟨1, 1, 0, 0⟩] ++ ⟨2, 2, 0, 0⟩ :: []) ∧
      ∀ q ∈ (⟨2, 2, 0, 0⟩ : Profile) :: [], q ∈ table) ∧
    reading_time_statistic_failing (fun i => i == 1)
        [⟨1, 1, 0, 0⟩, ⟨2, 2, 0, 0⟩]
        [⟨0, 1, 10, some 0, some 3600000000⟩] 90000000000 =
      .error [⟨1, 1, 3600, 3600⟩, ⟨2, 2, 0, 0⟩] :=
  ⟨aggregation_aborts_at_failure (by decide) (by decide) (by decide), rfl⟩

/-! ### Claim C9: stop times are never cleared; stop is at least start -/

/-- C9: no start/stop operation, run on any state whatsoever, ever turns a
session's non-null `stop_reading` back to null (the row at each position
keeps a non-null stop), and in every reachable state every session with both
timestamps satisfies `start_reading <= stop_reading`. The aggregation run
only rewrites profile rows and never touches sessions at all. -/
theorem stop_time_never_cleared_and_ordered :
    (∀ (s : Store) (op : Op) (i : Nat) (r : ReadingSession),
        s.sessions[i]? = some r → r.stop_reading ≠ none →
        ∃ r', (applyOp s op).sessions[i]? = some r' ∧ r'.stop_reading ≠ none) ∧
    (∀ (s : Store) (t : ℤ), Reach s t → ∀ r ∈ s.sessions,
        ∀ a st, r.start_reading = some a → r.stop_reading = some st →
          a ≤ st) := by
  constructor
  · intro s op i r hi hstop
    have hilt : i < s.sessions.length := (List.getElem?_eq_some.mp hi).1
    have hact : ∀ u, isActiveFor u r = false := by
      intro u
      rcases hst : r.stop_reading with _ | st
      · exact absurd hst hstop
      · simp [isActiveFor, hst]
    rcases op with ⟨u, b, n⟩ | ⟨u, b, n⟩
    · simp only [applyOp]
      rcases hres : startReading s u b n with e | ⟨s', rN⟩
      · exact ⟨r, hi, hstop⟩
      · obtain ⟨-, -, hsess⟩ := startReading_ok_shape hres
        refine ⟨r, ?_, hstop⟩
        rw [hsess, List.getElem?_append_left (by simpa using hilt),
          List.getElem?_map, hi]
        simp [closeFor_of_not_active (hact u)]
    · simp only [applyOp]
      rcases hres : stopReading s u b n with e | ⟨s', r'⟩
      · exact ⟨r, hi, hstop⟩
      · obtain ⟨inst, -, -, hr', -, hsess⟩ := stopReading_ok_shape hres
        rw [hsess, List.getElem?_map, hi]
        by_cases hid : (r.id == inst.id) = true
        · refine ⟨r', ?_, ?_⟩
          · simp only [Option.map_some']
            rw [if_pos hid]
          · rw [hr']
            simp
        · refine ⟨r, ?_, hstop⟩
          simp only [Option.map_some']
          rw [if_neg (by simpa using hid)]
  · intro s t hreach r hr a st ha hst
    obtain ⟨a', ha', -, hstop'⟩ := (storeInv_reach hreach).2.2.2 r hr
    rw [ha] at ha'
    cases ha'
    exact (hstop' st hst).1

/-- Witness for C9: closing the session on book 10 survives a later start on
book 11 with its stop intact, and a concrete reachable closed session has
`start <= stop`. -/
theorem stop_time_never_cleared_and_ordered_witness :
    (∃ r', ((applyOp ⟨[⟨0, 1, 10, some 1, some 3⟩], 1⟩
        (.start 1 11 6)).sessions)[0]? = some r' ∧ r'.stop_reading ≠ none) ∧
    (1 : ℤ) ≤ 3 :=
  ⟨stop_time_never_cleared_and_ordered.1 ⟨[⟨0, 1, 10, some 1, some 3⟩], 1⟩
      (.start 1 11 6) 0 ⟨0, 1, 10, some 1, some 3⟩ rfl (by decide),
   stop_time_never_cleared_and_ordered.2
      ⟨[⟨0, 1, 10, some 1, some 3⟩], 1⟩ 3
      (Reach.step (.stop 1 10 3)
        (Reach.step (.start 1 10 1) (Reach.init 0) (by decide)) (by decide))
      ⟨0, 1, 10, some 1, some 3⟩ (by decide) 1 3 rfl rfl⟩

end Bookery
